import Mathlib

/-!
Shallow embedding of the ledger replay engine of this repository
(`src/dataStructures.py`, `src/ledgerParser.py`).

Modelling choices, all dictated by the source:
* An `Entity` (`dataStructures.py`, class `Entity`) carries a `name`, a
  `type` (`None` for entities discovered in a transaction stream, hence
  `Option String`) and a `balance`.  Balances and amounts are Python
  floats used as decimal amounts; they are embedded as `ℚ`.
* Python mutates `Entity` objects through references held in the
  `Ledger.entities` list.  The embedding makes the state explicit: the
  state is the `List Entity`, entities are addressed by their position in
  that list, and every operation returns the updated list.  Distinct list
  positions are distinct Python objects (exactly what `parseEntities`
  produces); aliasing (`sender is receiver`) is position equality.
* Dates are parsed by `datetime.strptime` and only ever compared, so they
  are embedded as `Nat` (date-string parsing is an external adapter).
* Python exceptions become an explicit error type `Err`.  `Entity.pay`
  raises `Exception('Transaction not allowed ...')` — constructor
  `payerNotAllowed` carrying the offending type — and hits
  `AttributeError` on `receiver.balance` when the receiver is `None`;
  `Ledger.getBalanceAtDate` hits `AttributeError` on `sender.pay` when
  the sender lookup returned `None`.  Both `AttributeError`s are
  `attributeError` carrying the attribute name.
* A raised exception in Python leaves `self.entities` as already mutated,
  so every stateful operation returns `List Entity × Except Err _`: the
  state component is meaningful on the error path too.
-/

/-- Embeds class `Entity` of `src/dataStructures.py`: a named party with a
category (`type`) and a balance. -/
structure Entity where
  name : String
  type : Option String
  balance : ℚ
  deriving Repr, DecidableEq, Inhabited

/-- One row of a transactions CSV, with the date already parsed (fields
`date`, `sender`, `receiver`, `amount` required by `getBalanceAtDate`). -/
structure TransactionRecord where
  date : Nat
  sender : String
  receiver : String
  amount : ℚ
  deriving Repr, DecidableEq, Inhabited

/-- The Python exceptions the embedded operations can raise.
`payerNotAllowed t` is `Exception('Transaction not allowed. Trying to sent
currency from a ... entity.')` naming the sender's type `t`;
`attributeError a` is `AttributeError` from accessing attribute `a` on
`None`. -/
inductive Err where
  | payerNotAllowed (category : Option String)
  | attributeError (attr : String)
  deriving Repr, DecidableEq

/-- Embeds Python `str.lower()` as used in `entity.name.lower() ==
name.lower()`: per-character lowering.  (Defined by a structural map over
the character list so that it evaluates by kernel reduction.) -/
def strLower (s : String) : String :=
  ⟨s.data.map Char.toLower⟩

/-- Embeds the class attribute `Entity.allowedToPay = ['person', None]`. -/
def allowedToPay : List (Option String) := [some "person", none]

/-- Embeds `Entity.pay` (`src/dataStructures.py` lines 55-86) acting on the
entity list: `s` is the position of `self`, `r?` the position of `receiver`
(`none` embeds Python `None`).  Mirrors the source order exactly: the
eligibility check, then `uncommitedBalance = self.balance - amount` read
from the pre-transfer state, then `receiver.balance += amount`, then
`self.balance = uncommitedBalance`.  Returns the new state and either the
transferred amount or the raised exception. -/
def payState (es : List Entity) (s : Nat) (r? : Option Nat) (amount : ℚ) :
    List Entity × Except Err ℚ :=
  let sender := es.getD s default
  if sender.type ∈ allowedToPay then
    match r? with
    | none => (es, .error (.attributeError "balance"))
    | some r =>
      let uncommitedBalance := sender.balance - amount
      let es₁ := es.modify (fun e => { e with balance := e.balance + amount }) r
      let es₂ := es₁.modify (fun e => { e with balance := uncommitedBalance }) s
      (es₂, .ok amount)
  else
    (es, .error (.payerNotAllowed sender.type))

/-- Embeds the `elif transactionsFile is not None` branch of
`Entity.parseEntities` (`src/dataStructures.py` lines 144-153): for every
data row it appends `Entity(sender, None, 0.0)` and
`Entity(receiver, None, 0.0)`, with no duplicate check. -/
def parseEntitiesFromTransactions : List TransactionRecord → List Entity
  | [] => []
  | r :: rs =>
    ⟨r.sender, none, 0⟩ :: ⟨r.receiver, none, 0⟩ :: parseEntitiesFromTransactions rs

/-- Embeds `Ledger.getEntityByName` (`src/ledgerParser.py` lines 40-57),
returning the position of the first entity whose lowered name equals the
lowered query, or `none` (Python returns the object or `None`; the
position identifies the object for mutation). -/
def lookupIdx : List Entity → String → Option Nat
  | [], _ => none
  | e :: es, n =>
    if strLower e.name = strLower n then some 0
    else (lookupIdx es n).map Nat.succ

/-- The object-level view of `Ledger.getEntityByName`: the first entity in
list order whose name matches case-insensitively, or `none`. -/
def getEntityByName : List Entity → String → Option Entity
  | [], _ => none
  | e :: es, n =>
    if strLower e.name = strLower n then some e
    else getEntityByName es n

/-- The snapshot value `getBalanceAtDate` builds on the stopping record:
`{date.strftime(format): [{'name': e.name, 'balance': e.balance} ...]}`,
embedded as the cutoff date paired with the `(name, balance)` list. -/
def balanceSnapshot (cutoff : Nat) (es : List Entity) :
    Nat × List (String × ℚ) :=
  (cutoff, es.map fun e => (e.name, e.balance))

/-- Embeds the replay loop of `Ledger.getBalanceAtDate`
(`src/ledgerParser.py` lines 121-139) over the parsed data rows.  Per row
it resolves sender and receiver by name, then compares the row's date to
the cutoff: on `≤` it invokes `sender.pay(receiver, amount)` (an
unresolved sender is Python `None`, so calling `.pay` raises
`AttributeError`), on `>` it returns the snapshot of the current state.
A loop that exhausts the rows falls off the end of the function, which in
Python returns `None` — embedded as `.ok none`.  The final entity list is
returned alongside, since Python mutates `self.entities` in place. -/
def getBalanceAtDate (es : List Entity) (rows : List TransactionRecord)
    (cutoff : Nat) : List Entity × Except Err (Option (Nat × List (String × ℚ))) :=
  match rows with
  | [] => (es, .ok none)
  | r :: rest =>
    let s? := lookupIdx es r.sender
    let r? := lookupIdx es r.receiver
    if r.date ≤ cutoff then
      match s? with
      | none => (es, .error (.attributeError "pay"))
      | some s =>
        match payState es s r? r.amount with
        | (es', .ok _) => getBalanceAtDate es' rest cutoff
        | (es', .error e) => (es', .error e)
    else
      (es, .ok (some (balanceSnapshot cutoff es)))

/-- Sum of all balances in the registry (for conservation statements). -/
def sumBalances (es : List Entity) : ℚ :=
  (es.map Entity.balance).sum

/-- One successful iteration of the replay loop body, used to state the
stream-order theorem: resolve the sender, then `pay` with the resolved
receiver, propagating the raised exception if any. -/
def applyRecord (es : List Entity) (r : TransactionRecord) :
    Except Err (List Entity) :=
  match lookupIdx es r.sender with
  | none => .error (.attributeError "pay")
  | some s =>
    match payState es s (lookupIdx es r.receiver) r.amount with
    | (es', .ok _) => .ok es'
    | (_, .error e) => .error e

/-- Folds `applyRecord` over a list of rows, stopping at the first raised
exception. -/
def applyAll : List Entity → List TransactionRecord → Except Err (List Entity)
  | es, [] => .ok es
  | es, r :: rs =>
    match applyRecord es r with
    | .ok es' => applyAll es' rs
    | .error e => .error e

/-- Sample registry from the spec scenario: Alice and Bob, both persons. -/
def sampleRegistry : List Entity :=
  [⟨"alice", some "person", 100⟩, ⟨"bob", some "person", 50⟩]

/-- State of `sampleRegistry` after one transfer of 30 from alice to bob. -/
def sampleRegistryAfterOne : List Entity :=
  [⟨"alice", some "person", 70⟩, ⟨"bob", some "person", 80⟩]

/-- State of `sampleRegistry` after two transfers of 30 from alice to bob. -/
def sampleRegistryAfterTwo : List Entity :=
  [⟨"alice", some "person", 40⟩, ⟨"bob", some "person", 110⟩]

/-- Sample registry whose first entity has a type outside `allowedToPay`. -/
def corpRegistry : List Entity :=
  [⟨"corp", some "company", 100⟩, ⟨"bob", some "person", 50⟩]

/-- Sample single-entity registry, for the aliasing counterexample. -/
def soloRegistry : List Entity := [⟨"alice", some "person", 100⟩]

/-- Sample registry with two entities whose names differ only by case, as
`parseEntities` produces from a transaction stream. -/
def shadowRegistry : List Entity :=
  [⟨"alice", some "person", 100⟩, ⟨"ALICE", none, 5⟩, ⟨"bob", some "person", 50⟩]

/-- Sample transaction rows in which the name alice recurs across records
(as sender of the first row, with different casing in the second row). -/
def dupRows : List TransactionRecord :=
  [⟨1, "alice", "bob", 5⟩, ⟨2, "Alice", "carol", 3⟩]

/-- Sample rows: one transfer on day 1 and one on day 3, so a replay with
cutoff day 2 applies the first row and stops at the second. -/
def replayRows : List TransactionRecord :=
  [⟨1, "alice", "bob", 30⟩, ⟨3, "alice", "bob", 5⟩]

/-! ## Basic facts about the state update -/

theorem getD_modify_ne (f : Entity → Entity) {i j : Nat} (es : List Entity)
    (h : i ≠ j) : (es.modify f i).getD j default = es.getD j default := by
  rw [List.getD_eq_getElem?_getD, List.getD_eq_getElem?_getD,
    List.getElem?_modify_ne f es h]

theorem getD_modify_eq (f : Entity → Entity) {i : Nat} (es : List Entity)
    (h : i < es.length) : (es.modify f i).getD i default = f (es.getD i default) := by
  rw [List.getD_eq_getElem?_getD, List.getD_eq_getElem?_getD,
    List.getElem?_modify_eq, List.getElem?_eq_getElem h]
  rfl

theorem getD_modify_name (f : Entity → Entity) (hf : ∀ e, (f e).name = e.name)
    (i j : Nat) (es : List Entity) :
    ((es.modify f i).getD j default).name = (es.getD j default).name := by
  rcases eq_or_ne i j with rfl | h
  · by_cases hlt : i < es.length
    · rw [getD_modify_eq f es hlt, hf]
    · rw [List.modify_eq_self (Nat.le_of_not_lt hlt)]
  · rw [getD_modify_ne f es h]

theorem map_name_modify (f : Entity → Entity) (hf : ∀ e, (f e).name = e.name) :
    ∀ (i : Nat) (es : List Entity),
      (es.modify f i).map Entity.name = es.map Entity.name
  | _, [] => by simp
  | 0, e :: es => by simp [hf]
  | i + 1, e :: es => by simp [map_name_modify f hf i es]

theorem lookupIdx_congr :
    ∀ {es es' : List Entity}, es.map Entity.name = es'.map Entity.name →
      ∀ n : String, lookupIdx es n = lookupIdx es' n
  | [], [], _, _ => rfl
  | e :: es, e' :: es', h, n => by
    simp only [List.map_cons, List.cons.injEq] at h
    simp only [lookupIdx, h.1, lookupIdx_congr h.2 n]

theorem sumBalances_cons (e : Entity) (es : List Entity) :
    sumBalances (e :: es) = e.balance + sumBalances es := by
  simp [sumBalances]

theorem sumBalances_modify (f : Entity → Entity) :
    ∀ (i : Nat) (es : List Entity), i < es.length →
      sumBalances (es.modify f i)
        = sumBalances es
          + ((f (es.getD i default)).balance - (es.getD i default).balance)
  | 0, e :: es, _ => by
    rw [List.modify_zero_cons, sumBalances_cons, sumBalances_cons]
    have : (e :: es).getD 0 default = e := rfl
    rw [this]; ring
  | i + 1, e :: es, h => by
    rw [List.modify_succ_cons, sumBalances_cons, sumBalances_cons,
      sumBalances_modify f i es (by simpa using h)]
    have : (e :: es).getD (i + 1) default = es.getD i default := rfl
    rw [this]; ring

/-! ## Characterisation of `payState` -/

theorem payState_fst (es : List Entity) (s : Nat) (r? : Option Nat) (a : ℚ) :
    (payState es s r? a).1 = es ∨
      ∃ r, r? = some r ∧
        (payState es s r? a).1 =
          (es.modify (fun e => { e with balance := e.balance + a }) r).modify
            (fun e => { e with balance := (es.getD s default).balance - a }) s := by
  by_cases h : (es.getD s default).type ∈ allowedToPay
  · cases r? with
    | none => left; simp only [payState, if_pos h]
    | some r => right; exact ⟨r, rfl, by simp only [payState, if_pos h]⟩
  · left; simp only [payState, if_neg h]

theorem map_name_modifyBalance (g : Entity → ℚ) (i : Nat) (es : List Entity) :
    (es.modify (fun e => { e with balance := g e }) i).map Entity.name
      = es.map Entity.name :=
  map_name_modify (fun e => { e with balance := g e }) (fun _ => rfl) i es

theorem getD_name_modifyBalance (g : Entity → ℚ) (i j : Nat) (es : List Entity) :
    ((es.modify (fun e => { e with balance := g e }) i).getD j default).name
      = (es.getD j default).name :=
  getD_modify_name (fun e => { e with balance := g e }) (fun _ => rfl) i j es

theorem payState_map_name (es : List Entity) (s : Nat) (r? : Option Nat) (a : ℚ) :
    ((payState es s r? a).1).map Entity.name = es.map Entity.name := by
  rcases payState_fst es s r? a with h | ⟨r, _, h⟩
  · rw [h]
  · rw [h, map_name_modifyBalance, map_name_modifyBalance]

theorem payState_length (es : List Entity) (s : Nat) (r? : Option Nat) (a : ℚ) :
    ((payState es s r? a).1).length = es.length := by
  rcases payState_fst es s r? a with h | ⟨r, _, h⟩ <;> simp [h]

theorem lookupIdx_payState (es : List Entity) (s : Nat) (r? : Option Nat) (a : ℚ)
    (n : String) : lookupIdx ((payState es s r? a).1) n = lookupIdx es n :=
  lookupIdx_congr (payState_map_name es s r? a) n

theorem payState_getD_ne (es : List Entity) (s : Nat) (r? : Option Nat) (a : ℚ)
    (j : Nat) (hs : j ≠ s) (hr : ∀ r, r? = some r → j ≠ r) :
    ((payState es s r? a).1).getD j default = es.getD j default := by
  rcases payState_fst es s r? a with h | ⟨r, hr', h⟩
  · rw [h]
  · rw [h, getD_modify_ne _ _ (Ne.symm hs), getD_modify_ne _ _ (Ne.symm (hr r hr'))]

theorem payState_getD_name (es : List Entity) (s : Nat) (r? : Option Nat) (a : ℚ)
    (j : Nat) :
    (((payState es s r? a).1).getD j default).name = (es.getD j default).name := by
  rcases payState_fst es s r? a with h | ⟨r, _, h⟩
  · rw [h]
  · rw [h, getD_name_modifyBalance, getD_name_modifyBalance]

/-! ## Step equations of the replay loop -/

theorem getBalanceAtDate_nil (es : List Entity) (c : Nat) :
    getBalanceAtDate es [] c = (es, .ok none) := rfl

theorem getBalanceAtDate_stop (es : List Entity) (r : TransactionRecord)
    (rest : List TransactionRecord) (c : Nat) (h : c < r.date) :
    getBalanceAtDate es (r :: rest) c = (es, .ok (some (balanceSnapshot c es))) := by
  simp [getBalanceAtDate, Nat.not_le.2 h]

theorem getBalanceAtDate_step {es es₁ : List Entity} {s : Nat} {x : ℚ}
    (p : TransactionRecord) (rows : List TransactionRecord) (c : Nat)
    (hd : p.date ≤ c) (hs : lookupIdx es p.sender = some s)
    (hp : payState es s (lookupIdx es p.receiver) p.amount = (es₁, .ok x)) :
    getBalanceAtDate es (p :: rows) c = getBalanceAtDate es₁ rows c := by
  simp [getBalanceAtDate, hd, hs, hp]

theorem getBalanceAtDate_sender_none {es : List Entity} (p : TransactionRecord)
    (rows : List TransactionRecord) (c : Nat)
    (hd : p.date ≤ c) (hs : lookupIdx es p.sender = none) :
    getBalanceAtDate es (p :: rows) c = (es, .error (.attributeError "pay")) := by
  simp [getBalanceAtDate, hd, hs]

theorem getBalanceAtDate_pay_error {es es₁ : List Entity} {s : Nat} {e : Err}
    (p : TransactionRecord) (rows : List TransactionRecord) (c : Nat)
    (hd : p.date ≤ c) (hs : lookupIdx es p.sender = some s)
    (hp : payState es s (lookupIdx es p.receiver) p.amount = (es₁, .error e)) :
    getBalanceAtDate es (p :: rows) c = (es₁, .error e) := by
  simp [getBalanceAtDate, hd, hs, hp]

theorem applyRecord_eq_ok {es es₁ : List Entity} {p : TransactionRecord}
    (h : applyRecord es p = .ok es₁) :
    ∃ s x, lookupIdx es p.sender = some s ∧
      payState es s (lookupIdx es p.receiver) p.amount = (es₁, .ok x) := by
  unfold applyRecord at h
  cases hs : lookupIdx es p.sender with
  | none =>
    rw [hs] at h
    replace h : Except.error (α := List Entity) (Err.attributeError "pay")
        = Except.ok es₁ := h
    exact Except.noConfusion h
  | some s =>
    rw [hs] at h
    replace h :
        (match payState es s (lookupIdx es p.receiver) p.amount with
          | (es', Except.ok _) => Except.ok es'
          | (_, Except.error e) => Except.error e) = Except.ok es₁ := h
    cases hp : payState es s (lookupIdx es p.receiver) p.amount with
    | mk es₂ res =>
      cases res with
      | ok x =>
        rw [hp] at h
        replace h : Except.ok (ε := Err) es₂ = Except.ok es₁ := h
        cases h
        exact ⟨s, x, rfl, hp⟩
      | error e =>
        rw [hp] at h
        replace h : Except.error (α := List Entity) e = Except.ok es₁ := h
        exact Except.noConfusion h

/-! ## Lookup facts -/

theorem getEntityByName_congr (es : List Entity) {n₁ n₂ : String}
    (h : strLower n₁ = strLower n₂) :
    getEntityByName es n₁ = getEntityByName es n₂ := by
  induction es with
  | nil => rfl
  | cons e es ih => simp only [getEntityByName, h, ih]

theorem getEntityByName_isSome_of_mem {es : List Entity} {e : Entity} {n : String}
    (he : e ∈ es) (h : strLower e.name = strLower n) :
    ∃ e', getEntityByName es n = some e' := by
  induction he with
  | head as => exact ⟨e, by simp only [getEntityByName, if_pos h]⟩
  | tail b hmem ih =>
    by_cases hb : strLower b.name = strLower n
    · exact ⟨b, by simp only [getEntityByName, if_pos hb]⟩
    · obtain ⟨e', he'⟩ := ih
      exact ⟨e', by simp only [getEntityByName, if_neg hb]; exact he'⟩

theorem getEntityByName_eq_none_iff (es : List Entity) (n : String) :
    getEntityByName es n = none ↔ lookupIdx es n = none := by
  induction es with
  | nil => simp [getEntityByName, lookupIdx]
  | cons e es ih =>
    by_cases h : strLower e.name = strLower n
    · simp [getEntityByName, lookupIdx, if_pos h]
    · simp [getEntityByName, lookupIdx, if_neg h, ih]

theorem sumBalances_pay_update (es : List Entity) (s r : Nat) (a : ℚ)
    (hs : s < es.length) (hr : r < es.length) (hsr : s ≠ r) :
    sumBalances ((es.modify (fun e => { e with balance := e.balance + a }) r).modify
        (fun e => { e with balance := (es.getD s default).balance - a }) s)
      = sumBalances es := by
  rw [sumBalances_modify (fun e => { e with balance := (es.getD s default).balance - a }) s
      (es.modify (fun e => { e with balance := e.balance + a }) r) (by simpa using hs),
    sumBalances_modify (fun e => { e with balance := e.balance + a }) r es hr,
    getD_modify_ne _ _ (Ne.symm hsr)]
  dsimp only
  ring

/-! ## Claim theorems -/

/-- C2 counterexample: a successful self-transfer (`sender is receiver`:
the same list position 0) of 30 from a balance of 100 leaves the single
balance at 70, because `self.balance = uncommitedBalance` overwrites the
credit: the receiver side of the claimed equation (`100 + 30`) fails and
the total balance drops by the amount. -/
theorem pay_self_transfer_breaks_conservation :
    payState soloRegistry 0 (some 0) 30
        = ([⟨"alice", some "person", 70⟩], .ok 30) ∧
      sumBalances [⟨"alice", some "person", (70 : ℚ)⟩] ≠ sumBalances soloRegistry ∧
      (70 : ℚ) ≠ 100 + 30 := by
  refine ⟨?_, ?_, ?_⟩
  · norm_num [payState, soloRegistry, allowedToPay, List.modify, List.getD]
  · norm_num [sumBalances, soloRegistry]
  · norm_num

/-- C2 (amended): for every successful `pay` between two distinct
entities, the sender's balance afterwards is its balance before minus the
amount, the receiver's balance afterwards is its balance before plus the
amount, and the sum of all balances is unchanged.  (Distinctness of the
two positions is forced by the self-transfer counterexample.) -/
theorem pay_conservation_of_distinct (es es' : List Entity) (s r : Nat) (a x : ℚ)
    (hs : s < es.length) (hr : r < es.length) (hsr : s ≠ r)
    (h : payState es s (some r) a = (es', .ok x)) :
    (es'.getD s default).balance = (es.getD s default).balance - a ∧
      (es'.getD r default).balance = (es.getD r default).balance + a ∧
      sumBalances es' = sumBalances es := by
  by_cases hall : (es.getD s default).type ∈ allowedToPay
  · simp only [payState, if_pos hall] at h
    injection h with h1 h2
    subst h1
    refine ⟨?_, ?_, ?_⟩
    · rw [getD_modify_eq (fun e => { e with balance := (es.getD s default).balance - a })
        (es.modify (fun e => { e with balance := e.balance + a }) r) (by simpa using hs)]
    · rw [getD_modify_ne (fun e => { e with balance := (es.getD s default).balance - a })
        (es.modify (fun e => { e with balance := e.balance + a }) r) hsr,
        getD_modify_eq (fun e => { e with balance := e.balance + a }) es hr]
    · exact sumBalances_pay_update es s r a hs hr hsr
  · simp only [payState, if_neg hall] at h
    injection h with h1 h2
    exact Except.noConfusion h2

/-- Witness for C2 (amended): the transfer of 30 from alice (position 0,
balance 100) to bob (position 1, balance 50) in `sampleRegistry`. -/
theorem pay_conservation_of_distinct_witness :
    (sampleRegistryAfterOne.getD 0 default).balance
        = (sampleRegistry.getD 0 default).balance - 30 ∧
      (sampleRegistryAfterOne.getD 1 default).balance
        = (sampleRegistry.getD 1 default).balance + 30 ∧
      sumBalances sampleRegistryAfterOne = sumBalances sampleRegistry :=
  pay_conservation_of_distinct sampleRegistry sampleRegistryAfterOne 0 1 30 30
    (by norm_num [sampleRegistry]) (by norm_num [sampleRegistry]) (by norm_num)
    (by norm_num [payState, sampleRegistry, sampleRegistryAfterOne, allowedToPay,
      List.modify, List.getD])

/-- C4: a `pay` from a sender whose type is outside `allowedToPay` raises
the payer-not-allowed exception naming that type, for every receiver
(present or `None`) and every amount, and returns the entity list
unchanged, so no balance moves. -/
theorem pay_disallowed_payer_fails (es : List Entity) (s : Nat) (r? : Option Nat)
    (a : ℚ) (h : (es.getD s default).type ∉ allowedToPay) :
    payState es s r? a = (es, .error (.payerNotAllowed (es.getD s default).type)) := by
  simp only [payState, if_neg h]

/-- Witness for C4: the company entity of `corpRegistry` attempting to pay
30 to position 1. -/
theorem pay_disallowed_payer_fails_witness :
    payState corpRegistry 0 (some 1) 30
      = (corpRegistry, .error (.payerNotAllowed (some "company"))) :=
  pay_disallowed_payer_fails corpRegistry 0 (some 1) 30 (by decide)

/-- C5 (amended): a `pay` whose receiver is `None` always fails and leaves
the entity list (hence every balance) unchanged; the exception is the
invalid-receiver failure (`AttributeError` at `receiver.balance`) exactly
when the payer's type is allowed, and the payer-not-allowed exception
otherwise, because the source checks payer eligibility before touching
the receiver. -/
theorem pay_none_receiver_always_fails (es : List Entity) (s : Nat) (a : ℚ) :
    payState es s none a =
      (es, .error
        (if (es.getD s default).type ∈ allowedToPay then .attributeError "balance"
         else .payerNotAllowed (es.getD s default).type)) := by
  by_cases h : (es.getD s default).type ∈ allowedToPay
  · simp only [payState, if_pos h]
  · simp only [payState, if_neg h]

/-- C5 counterexample: with the company sender of `corpRegistry` and a
`None` receiver, the exception raised is the payer-not-allowed one, not
the invalid-receiver (`AttributeError` at `receiver.balance`) failure the
claim names for every sender. -/
theorem pay_none_receiver_disallowed_payer_error :
    payState corpRegistry 0 none 30
        = (corpRegistry, .error (.payerNotAllowed (some "company"))) ∧
      Err.payerNotAllowed (some "company") ≠ Err.attributeError "balance" :=
  ⟨rfl, by decide⟩

/-- C6 (amended): entity-set construction from a transaction stream
performs no uniqueness check: for every name, the number of parsed
entities matching it case-insensitively equals the number of sender
mentions plus receiver mentions of that name in the stream, so a name
occurring in several records (or roles) yields that many duplicate
entities, and no duplicate-registration failure exists. -/
theorem parseEntities_appends_per_mention (rows : List TransactionRecord)
    (n : String) :
    (parseEntitiesFromTransactions rows).countP
        (fun e => strLower e.name == strLower n)
      = rows.countP (fun r => strLower r.sender == strLower n)
        + rows.countP (fun r => strLower r.receiver == strLower n) := by
  induction rows with
  | nil => rfl
  | cons r rs ih =>
    simp only [parseEntitiesFromTransactions, List.countP_cons, ih]
    ring

/-- C6 counterexample: parsing the two-record stream `dupRows` (alice is
the first sender, Alice the second) yields four entities, among them
positions 0 and 2 with the same case-insensitive name — building from a
transaction stream does produce duplicate names, with no error. -/
theorem parseEntities_duplicate_names :
    (parseEntitiesFromTransactions dupRows).length = 4 ∧
      strLower ((parseEntitiesFromTransactions dupRows).getD 0 default).name
        = strLower ((parseEntitiesFromTransactions dupRows).getD 2 default).name :=
  ⟨rfl, rfl⟩

/-- C7 counterexample: `getEntityByName` on a registry with no matching
name returns `None` as an ordinary value — its type has no error channel,
so no not-found error is signalled by lookup. -/
theorem getEntityByName_unknown_returns_none :
    getEntityByName sampleRegistry "carol" = none := by decide

/-- C7 (amended): lookup of an unregistered name returns `None` rather
than signalling an error; consequently, during replay, a processed record
(date on/before cutoff) with an unregistered sender aborts the replay
with the `AttributeError` from calling `pay` on `None`, and one with an
unregistered receiver (and a registered, allowed sender) aborts with the
`AttributeError` at `receiver.balance` — no not-found error exists. -/
theorem replay_unregistered_name_fails (es : List Entity) (p : TransactionRecord)
    (rows : List TransactionRecord) (c : Nat) (hd : p.date ≤ c) :
    (getEntityByName es p.sender = none →
      getBalanceAtDate es (p :: rows) c = (es, .error (.attributeError "pay"))) ∧
    (∀ s, lookupIdx es p.sender = some s →
      getEntityByName es p.receiver = none →
      (es.getD s default).type ∈ allowedToPay →
      getBalanceAtDate es (p :: rows) c = (es, .error (.attributeError "balance"))) := by
  constructor
  · intro h
    exact getBalanceAtDate_sender_none p rows c hd
      ((getEntityByName_eq_none_iff es p.sender).mp h)
  · intro s hsend hrecv hall
    have hr' : lookupIdx es p.receiver = none :=
      (getEntityByName_eq_none_iff es p.receiver).mp hrecv
    apply getBalanceAtDate_pay_error p rows c hd hsend
    rw [hr']
    simp only [payState, if_pos hall]

/-- Witness for C7 (amended): replaying a single record whose sender
carol is not in `sampleRegistry` aborts with the `AttributeError` from
`None.pay`. -/
theorem replay_unregistered_name_fails_witness :
    getBalanceAtDate sampleRegistry [⟨1, "carol", "bob", 5⟩] 2
      = (sampleRegistry, .error (.attributeError "pay")) :=
  (replay_unregistered_name_fails sampleRegistry ⟨1, "carol", "bob", 5⟩ [] 2
    (by norm_num)).1 (by decide)

/-- C8: `Ledger.getEntityByName` is case-insensitive: on a registry
containing an entity, looking the entity up under any two casing variants
of its name yields the same result, and that result is some entity. -/
theorem getEntityByName_case_insensitive (es : List Entity) (e : Entity)
    (n₁ n₂ : String) (he : e ∈ es) (h₁ : strLower n₁ = strLower e.name)
    (h₂ : strLower n₂ = strLower e.name) :
    getEntityByName es n₁ = getEntityByName es n₂ ∧
      ∃ e', getEntityByName es n₁ = some e' :=
  ⟨getEntityByName_congr es (h₁.trans h₂.symm),
    getEntityByName_isSome_of_mem he h₁.symm⟩

/-- Witness for C8 at the spec's concrete scenario: ALICE and alice both
resolve in `sampleRegistry`, to the same entity. -/
theorem getEntityByName_case_insensitive_witness :
    getEntityByName sampleRegistry "ALICE" = getEntityByName sampleRegistry "alice" :=
  (getEntityByName_case_insensitive sampleRegistry ⟨"alice", some "person", 100⟩
    "ALICE" "alice" (by decide) (by decide) (by decide)).1

/-- C1 (behaviour at the failing input): when every record lies on/before
the cutoff the loop exhausts the stream, applies the transfers, and then
falls off the end of `getBalanceAtDate`, returning Python `None` instead
of a balance snapshot of the final state. -/
theorem getBalanceAtDate_exhausted_returns_none :
    getBalanceAtDate sampleRegistry [⟨1, "alice", "bob", 30⟩] 5
      = (sampleRegistryAfterOne, .ok none) := by
  have hs : lookupIdx sampleRegistry "alice" = some 0 := by decide
  have hr : lookupIdx sampleRegistry "bob" = some 1 := by decide
  have hp : payState sampleRegistry 0 (lookupIdx sampleRegistry "bob") 30
      = (sampleRegistryAfterOne, .ok 30) := by
    rw [hr]
    norm_num [payState, sampleRegistry, sampleRegistryAfterOne, allowedToPay,
      List.modify, List.getD]
  rw [getBalanceAtDate_step ⟨1, "alice", "bob", 30⟩ [] 5 (by norm_num) hs hp]
  exact getBalanceAtDate_nil sampleRegistryAfterOne 5

/-- C9 (behaviour at the failing input): two identical snapshot calls
with cutoff day 2 on `sampleRegistry` return different snapshots — the
first call leaves the applied transfer in the entity list and the second
call re-applies it to the mutated balances. -/
theorem getBalanceAtDate_not_idempotent :
    getBalanceAtDate sampleRegistry replayRows 2
        = (sampleRegistryAfterOne, .ok (some (2, [("alice", 70), ("bob", 80)]))) ∧
      getBalanceAtDate (getBalanceAtDate sampleRegistry replayRows 2).1 replayRows 2
        = (sampleRegistryAfterTwo, .ok (some (2, [("alice", 40), ("bob", 110)]))) ∧
      (getBalanceAtDate sampleRegistry replayRows 2).2
        ≠ (getBalanceAtDate (getBalanceAtDate sampleRegistry replayRows 2).1
            replayRows 2).2 := by
  have hs1 : lookupIdx sampleRegistry "alice" = some 0 := by decide
  have hr1 : lookupIdx sampleRegistry "bob" = some 1 := by decide
  have hp1 : payState sampleRegistry 0 (lookupIdx sampleRegistry "bob") 30
      = (sampleRegistryAfterOne, .ok 30) := by
    rw [hr1]
    norm_num [payState, sampleRegistry, sampleRegistryAfterOne, allowedToPay,
      List.modify, List.getD]
  have h1 : getBalanceAtDate sampleRegistry replayRows 2
      = (sampleRegistryAfterOne, .ok (some (2, [("alice", 70), ("bob", 80)]))) := by
    show getBalanceAtDate sampleRegistry
        (⟨1, "alice", "bob", 30⟩ :: ⟨3, "alice", "bob", 5⟩ :: []) 2 = _
    rw [getBalanceAtDate_step ⟨1, "alice", "bob", 30⟩ [⟨3, "alice", "bob", 5⟩] 2
        (by norm_num) hs1 hp1,
      getBalanceAtDate_stop sampleRegistryAfterOne ⟨3, "alice", "bob", 5⟩ [] 2
        (by norm_num)]
    rfl
  have hs2 : lookupIdx sampleRegistryAfterOne "alice" = some 0 := by decide
  have hr2 : lookupIdx sampleRegistryAfterOne "bob" = some 1 := by decide
  have hp2 : payState sampleRegistryAfterOne 0 (lookupIdx sampleRegistryAfterOne "bob") 30
      = (sampleRegistryAfterTwo, .ok 30) := by
    rw [hr2]
    norm_num [payState, sampleRegistryAfterOne, sampleRegistryAfterTwo, allowedToPay,
      List.modify, List.getD]
  have h2 : getBalanceAtDate sampleRegistryAfterOne replayRows 2
      = (sampleRegistryAfterTwo, .ok (some (2, [("alice", 40), ("bob", 110)]))) := by
    show getBalanceAtDate sampleRegistryAfterOne
        (⟨1, "alice", "bob", 30⟩ :: ⟨3, "alice", "bob", 5⟩ :: []) 2 = _
    rw [getBalanceAtDate_step ⟨1, "alice", "bob", 30⟩ [⟨3, "alice", "bob", 5⟩] 2
        (by norm_num) hs2 hp2,
      getBalanceAtDate_stop sampleRegistryAfterTwo ⟨3, "alice", "bob", 5⟩ [] 2
        (by norm_num)]
    rfl
  refine ⟨h1, ?_, ?_⟩
  · rw [h1]; exact h2
  · simp only [h1]
    simp only [h2]
    intro hcon
    exact absurd (Option.some.inj (Except.ok.inj hcon)) (by decide)

/-- C3: the replay consumes records strictly in stream order: if every
record of a prefix lies on/before the cutoff and applying that prefix in
order succeeds, and the next record's date exceeds the cutoff, the replay
returns the snapshot of the state after exactly that prefix — whatever
follows the stopping record, including records dated on/before the
cutoff, is never consumed. -/
theorem getBalanceAtDate_stream_order (ps : List TransactionRecord)
    (es es' : List Entity) (r : TransactionRecord) (rest : List TransactionRecord)
    (c : Nat) (hps : ∀ p ∈ ps, p.date ≤ c) (happ : applyAll es ps = .ok es')
    (hr : c < r.date) :
    getBalanceAtDate es (ps ++ r :: rest) c
      = (es', .ok (some (balanceSnapshot c es'))) := by
  induction ps generalizing es with
  | nil =>
    replace happ : Except.ok (ε := Err) es = .ok es' := happ
    cases happ
    exact getBalanceAtDate_stop es' r rest c hr
  | cons p ps ih =>
    have hd : p.date ≤ c := hps p (List.mem_cons_self p ps)
    cases hrec : applyRecord es p with
    | error e =>
      simp only [applyAll] at happ
      rw [hrec] at happ
      exact Except.noConfusion happ
    | ok es₁ =>
      simp only [applyAll] at happ
      rw [hrec] at happ
      obtain ⟨s, x, hs, hp⟩ := applyRecord_eq_ok hrec
      rw [List.cons_append, getBalanceAtDate_step p (ps ++ r :: rest) c hd hs hp]
      exact ih es₁ (fun q hq => hps q (List.mem_cons_of_mem p hq)) happ

/-- Witness for C3: a prefix of one day-1 transfer, a stopping record on
day 5, and a later record on day 2 whose date is before the cutoff 3 but
which is never applied. -/
theorem getBalanceAtDate_stream_order_witness :
    getBalanceAtDate sampleRegistry
        ([⟨1, "alice", "bob", 30⟩] ++ ⟨5, "alice", "bob", 7⟩ :: [⟨2, "alice", "bob", 10⟩]) 3
      = (sampleRegistryAfterOne, .ok (some (3, [("alice", 70), ("bob", 80)]))) := by
  have hs : lookupIdx sampleRegistry "alice" = some 0 := by decide
  have hr : lookupIdx sampleRegistry "bob" = some 1 := by decide
  have hp : payState sampleRegistry 0 (lookupIdx sampleRegistry "bob") 30
      = (sampleRegistryAfterOne, .ok 30) := by
    rw [hr]
    norm_num [payState, sampleRegistry, sampleRegistryAfterOne, allowedToPay,
      List.modify, List.getD]
  have hrec : applyRecord sampleRegistry ⟨1, "alice", "bob", 30⟩
      = .ok sampleRegistryAfterOne := by
    simp only [applyRecord, hs, hp]
  have happ : applyAll sampleRegistry [⟨1, "alice", "bob", 30⟩]
      = .ok sampleRegistryAfterOne := by
    simp only [applyAll, hrec]
  exact getBalanceAtDate_stream_order [⟨1, "alice", "bob", 30⟩] sampleRegistry
    sampleRegistryAfterOne ⟨5, "alice", "bob", 7⟩ [⟨2, "alice", "bob", 10⟩] 3
    (by decide) happ (by norm_num)

/-! ## First-match lookup and shadowed duplicates -/

theorem lookupIdx_first_match (es : List Entity) (n : String) :
    ∀ j, lookupIdx es n = some j →
      strLower ((es.getD j default).name) = strLower n ∧
        ∀ i < j, strLower ((es.getD i default).name) ≠ strLower n := by
  induction es with
  | nil => intro j h; cases h
  | cons e es ih =>
    intro j h
    by_cases hc : strLower e.name = strLower n
    · simp only [lookupIdx, if_pos hc] at h
      cases h
      exact ⟨hc, fun i hi => absurd hi (Nat.not_lt_zero i)⟩
    · simp only [lookupIdx, if_neg hc] at h
      cases hj' : lookupIdx es n with
      | none => rw [hj'] at h; cases h
      | some j' =>
        rw [hj'] at h
        replace h : some (j' + 1) = some j := h
        injection h with h
        subst h
        obtain ⟨h1, h2⟩ := ih j' hj'
        refine ⟨h1, fun i hi => ?_⟩
        cases i with
        | zero => exact hc
        | succ i' => exact h2 i' (Nat.lt_of_succ_lt_succ hi)

theorem lookupIdx_ne_shadowed {es : List Entity} {i j : Nat} (hij : i < j)
    (hname : strLower ((es.getD i default).name)
      = strLower ((es.getD j default).name)) (n : String) :
    lookupIdx es n ≠ some j := by
  intro h
  obtain ⟨h1, h2⟩ := lookupIdx_first_match es n j h
  exact h2 i hij (hname.trans h1)

theorem getBalanceAtDate_shadowed_invariant (rows : List TransactionRecord) :
    ∀ (es : List Entity) (c i j : Nat), i < j → j < es.length →
      strLower ((es.getD i default).name) = strLower ((es.getD j default).name) →
      ((getBalanceAtDate es rows c).1).getD j default = es.getD j default ∧
        (∀ d snap, (getBalanceAtDate es rows c).2 = .ok (some (d, snap)) →
          snap.getD j ("", 0)
            = ((es.getD j default).name, (es.getD j default).balance)) := by
  induction rows with
  | nil =>
    intro es c i j hij hj hname
    exact ⟨rfl, fun d snap h => Option.noConfusion (Except.ok.inj h)⟩
  | cons p rows ih =>
    intro es c i j hij hj hname
    by_cases hd : p.date ≤ c
    · cases hs : lookupIdx es p.sender with
      | none =>
        rw [getBalanceAtDate_sender_none p rows c hd hs]
        exact ⟨rfl, fun d snap h => Except.noConfusion h⟩
      | some s =>
        have hjs : j ≠ s := fun hEq =>
          lookupIdx_ne_shadowed hij hname p.sender (hEq ▸ hs)
        have hjr : ∀ r', lookupIdx es p.receiver = some r' → j ≠ r' :=
          fun r' hr' hEq => lookupIdx_ne_shadowed hij hname p.receiver (hEq ▸ hr')
        cases hp : payState es s (lookupIdx es p.receiver) p.amount with
        | mk es₁ res =>
          have hkeep : es₁.getD j default = es.getD j default := by
            have h' := payState_getD_ne es s (lookupIdx es p.receiver) p.amount j hjs hjr
            rw [hp] at h'
            exact h'
          cases res with
          | error e =>
            rw [getBalanceAtDate_pay_error p rows c hd hs hp]
            exact ⟨hkeep, fun d snap h => Except.noConfusion h⟩
          | ok x =>
            rw [getBalanceAtDate_step p rows c hd hs hp]
            have hlen : j < es₁.length := by
              have h' := payState_length es s (lookupIdx es p.receiver) p.amount
              rw [hp] at h'
              exact h'.symm ▸ hj
            have hname₁ : strLower ((es₁.getD i default).name)
                = strLower ((es₁.getD j default).name) := by
              have hni := payState_getD_name es s (lookupIdx es p.receiver) p.amount i
              have hnj := payState_getD_name es s (lookupIdx es p.receiver) p.amount j
              rw [hp] at hni hnj
              rw [hni, hnj]
              exact hname
            obtain ⟨ha, hb⟩ := ih es₁ c i j hij hlen hname₁
            refine ⟨ha.trans hkeep, fun d snap h => ?_⟩
            rw [hb d snap h, hkeep]
    · rw [getBalanceAtDate_stop es p rows c (Nat.lt_of_not_le hd)]
      refine ⟨rfl, fun d snap h => ?_⟩
      have hsnap : (c, es.map fun e => (e.name, e.balance)) = (d, snap) :=
        Option.some.inj (Except.ok.inj h)
      have hsnap' : snap = es.map fun e => (e.name, e.balance) :=
        (congrArg Prod.snd hsnap).symm
      rw [hsnap']
      simp [List.getD_eq_getElem?_getD, List.getElem?_map, List.getElem?_eq_getElem hj]

/-- C10: when position `j` of the registry is shadowed by an earlier
position `i` whose name matches case-insensitively, `getEntityByName`
never resolves any name to `j` (lookup returns the first match in list
order), so replay never mutates the entity at `j`: it keeps its initial
name, type and balance, and when a snapshot is produced its entry at
position `j` still lists the duplicate's own name with the untouched
balance. -/
theorem lookup_shadowed_duplicates (rows : List TransactionRecord)
    (es : List Entity) (c i j : Nat) (hij : i < j) (hj : j < es.length)
    (hname : strLower ((es.getD i default).name)
      = strLower ((es.getD j default).name)) :
    (∀ n, lookupIdx es n ≠ some j) ∧
      ((getBalanceAtDate es rows c).1).getD j default = es.getD j default ∧
      (∀ d snap, (getBalanceAtDate es rows c).2 = .ok (some (d, snap)) →
        snap.getD j ("", 0)
          = ((es.getD j default).name, (es.getD j default).balance)) := by
  obtain ⟨ha, hb⟩ := getBalanceAtDate_shadowed_invariant rows es c i j hij hj hname
  exact ⟨fun n => lookupIdx_ne_shadowed hij hname n, ha, hb⟩

/-- Witness for C10: in `shadowRegistry` the entity ALICE at position 1 is
shadowed by alice at position 0; after the replay of `replayRows` with
cutoff 2 it still holds its initial balance 5. -/
theorem lookup_shadowed_duplicates_witness :
    ((getBalanceAtDate shadowRegistry replayRows 2).1).getD 1 default
      = shadowRegistry.getD 1 default :=
  (lookup_shadowed_duplicates replayRows shadowRegistry 2 0 1 (by decide) (by decide)
    (by decide)).2.1
